import Mathlib

/-!
Shallow embedding of the `tonconnect` client library (Go): the session /
bridge protocol core (`Session`, the SSE event handler of `connectToBridge`,
`decrypt`, `sendMessage`, `NewSession`) and the `connector` package wrappers
(`SendTransaction`, `SignData`, `Disconnect`, `Connect`).

Machine integers (`uint64` counters, bytes) are modelled as `Nat` with the
relevant bounds made explicit where overflow matters (`strconv.ParseUint`
with bit size 64).  Pointers that may be nil (`nacl.Key`, `*Session` fields)
are modelled as `Option`.  Fallible operations return `Option` / `Except`.
External collaborators (the `nacl` crypto library, `encoding/json`, the SSE
transport, the storage backend) are modelled as explicit function parameters
or, where their behaviour is fixed and simple (`hex`, `strconv`), as
executable Lean functions mirroring the Go standard library.
-/

namespace TonConnect

/-- A NaCl box key (`nacl.Key` in Go: a pointer to a 32-byte array).
A non-nil key is the list of its 32 bytes; a nil key is `none` at use sites. -/
abbrev Key := List Nat

/-- Model of Go `strconv.ParseUint(s, 10, 64)`: succeeds exactly on a
non-empty all-decimal-digit string whose value fits in 64 bits. -/
def parseUint64 (s : String) : Option Nat :=
  if s.data = [] then none
  else if s.data.all Char.isDigit then
    let n := s.data.foldl (fun acc c => acc * 10 + (c.toNat - 48)) 0
    if n < 2 ^ 64 then some n else none
  else none

/-- Lower-case hex digit for a nibble, as produced by Go `encoding/hex`. -/
def hexDigitChar (n : Nat) : Char :=
  if n < 10 then Char.ofNat (48 + n) else Char.ofNat (87 + n)

/-- Model of Go `hex.EncodeToString` on a byte slice. -/
def hexEncode (key : List Nat) : String :=
  String.mk (key.foldr (fun b acc => hexDigitChar (b / 16) :: hexDigitChar (b % 16) :: acc) [])

/-- Value of one hex digit character (Go `encoding/hex` accepts both cases). -/
def hexDigitVal (c : Char) : Option Nat :=
  if 48 ≤ c.toNat ∧ c.toNat ≤ 57 then some (c.toNat - 48)
  else if 97 ≤ c.toNat ∧ c.toNat ≤ 102 then some (c.toNat - 87)
  else if 65 ≤ c.toNat ∧ c.toNat ≤ 70 then some (c.toNat - 55)
  else none

/-- Model of Go `hex.DecodeString` (fails on odd length or a non-hex digit). -/
def hexDecode : List Char → Option (List Nat)
  | [] => some []
  | [_] => none
  | hi :: lo :: rest =>
    match hexDigitVal hi, hexDigitVal lo, hexDecode rest with
    | some h, some l, some bs => some ((h * 16 + l) :: bs)
    | _, _, _ => none

/-- Model of the external `nacl.Load`: hex-decode the string and require
exactly `nacl.KeySize = 32` bytes. -/
def naclLoad (s : String) : Option Key :=
  match hexDecode s.data with
  | some bs => if bs.length = 32 then some bs else none
  | none => none

/-- The `Session` struct of the core package.  `atomic.Uint64` counters are
`Nat` (they are only stored and compared, never incremented past 64 bits by
the code under consideration); nilable `nacl.Key` fields are `Option Key`. -/
structure Session where
  ID : Option Key
  PrivateKey : Option Key
  ClientID : Option Key
  BridgeURL : String
  LastEventID : Nat
  LastRequestID : Nat
deriving DecidableEq

/-- `NewSession` after a successful `box.GenerateKey`: the generated pair is
a parameter (the randomness source is external); both counters are stored
as 1, the peer key and bridge URL are unset. -/
def NewSession (id pk : Key) : Session :=
  { ID := some id, PrivateKey := some pk, ClientID := none, BridgeURL := "",
    LastEventID := 1, LastRequestID := 1 }

/-- Error cases of `Session.decrypt`, one per `fmt.Errorf` site:
`loadClientID` = "failed to load client ID",
`peerMismatch` = "session and bridge message client IDs don't match",
`openFailed`   = "failed to decrypt bridge message",
`unmarshalFailed` = "failed to unmarshal decrypted data". -/
inductive DecryptError
  | loadClientID
  | peerMismatch
  | openFailed
  | unmarshalFailed
deriving DecidableEq

/-- `Session.decrypt(from, msg, v)`, in state-passing style (the Go receiver
is a pointer, so the possibly-updated session is returned alongside the
result).  The external `box.EasyOpen` is the parameter `ob` (ciphertext,
sender public key, own private key); the `json.Unmarshal` of the plaintext
into the caller-chosen payload shape `W` is the parameter `pp`. -/
def decrypt {W : Type} (ob : List Nat → Key → Option Key → Option (List Nat))
    (pp : List Nat → Option W) (s : Session) (fr : String) (msg : List Nat) :
    Session × Except DecryptError (Key × W) :=
  match naclLoad fr with
  | none => (s, Except.error DecryptError.loadClientID)
  | some clientID =>
    let proceed : Session × Except DecryptError (Key × W) :=
      match ob msg clientID s.PrivateKey with
      | none => (s, Except.error DecryptError.openFailed)
      | some data =>
        match pp data with
        | none => (s, Except.error DecryptError.unmarshalFailed)
        | some w => (s, Except.ok (clientID, w))
    match s.ClientID with
    | some bound =>
      if bound = clientID then proceed
      else (s, Except.error DecryptError.peerMismatch)
    | none => proceed

/-- One SSE event as handed to the `SubscribeEvent("message", ...)` callback:
the frame-level id (`e.LastEventID`, a string) and the frame data. -/
structure SSEEvent where
  lastEventID : String
  data : String
deriving DecidableEq

/-- A decrypted message republished on the internal channel
(`bridgeMessage{BrdigeURL: ..., From: ..., Message: ...}`; the field name
typo is the source's). -/
structure BridgeDelivery (W : Type) where
  BrdigeURL : String
  From : Key
  Message : W
deriving DecidableEq

/-- The body of the `SubscribeEvent` callback in `connectToBridge`, for one
delivered event.  `pe` models `json.Unmarshal` of the event data into the
anonymous envelope `{from string; message []byte}` (the `[]byte` field is
base64-decoded by `encoding/json`); `ob`/`pp` are as in `decrypt`.
Result `none` models the `log.Panicf` on a non-numeric event id (the
process dies); otherwise the updated session is returned together with the
message published on the internal channel, if any. -/
def handleEvent {W : Type} (pe : String → Option (String × List Nat))
    (ob : List Nat → Key → Option Key → Option (List Nat)) (pp : List Nat → Option W)
    (burl : String) (s : Session) (e : SSEEvent) :
    Option (Session × Option (BridgeDelivery W)) :=
  match parseUint64 e.lastEventID with
  | none => none
  | some id =>
    let s1 : Session := { s with LastEventID := id }
    match pe e.data with
    | none => some (s1, none)
    | some (fr, m) =>
      match decrypt ob pp s1 fr m with
      | (s2, Except.ok (clientID, w)) => some (s2, some ⟨burl, clientID, w⟩)
      | (s2, Except.error _) => some (s2, none)

/-- The SSE library invoking the callback once per delivered event, in
delivery order, collecting what is published on the internal channel.
`none` models the panic on the first non-numeric event id. -/
def processEvents {W : Type} (pe : String → Option (String × List Nat))
    (ob : List Nat → Key → Option Key → Option (List Nat)) (pp : List Nat → Option W)
    (burl : String) : Session → List SSEEvent → Option (Session × List (BridgeDelivery W))
  | s, [] => some (s, [])
  | s, e :: rest =>
    match handleEvent pe ob pp burl s e with
    | none => none
    | some (s1, d) =>
      match processEvents pe ob pp burl s1 rest with
      | none => none
      | some (s2, ds) => some (s2, (match d with | some x => [x] | none => []) ++ ds)

/-- `BridgeMessageOptions` of the core package (`TTL`, `Topic`, both strings;
the default TTL is the string "300"). -/
structure BridgeMessageOptions where
  TTL : String
  Topic : String
deriving DecidableEq

/-- What `Session.sendMessage` does, up to and including the single HTTP
POST it issues.  `notEstablished` is the fail-fast
"tonconnect: session not established" error; `encryptFailed` is a
`json.Marshal` failure inside `encrypt`; `httpRequest q body` records the
query parameters of `<bridgeURL>/message` and the sealed bytes whose base64
text is the request body (the HTTP response handling is external I/O). -/
inductive SendOutcome
  | notEstablished
  | encryptFailed
  | httpRequest (query : List (String × String)) (body : List Nat)
deriving DecidableEq

/-- `Session.sendMessage(ctx, msg, topic, options...)`, in state-passing
style, cut off at the HTTP POST.  `marshal` models `json.Marshal` of the
payload, `seal` models the external `box.EasySeal` (plaintext, recipient
public key, own private key; it cannot fail in Go).  Query parameters are
recorded in the order the code sets them (`url.Values.Encode` would emit
them sorted by key; no claim depends on the order). -/
def sendMessage {W : Type} (marshal : W → Option (List Nat))
    (easySeal : List Nat → Option Key → Option Key → List Nat)
    (s : Session) (msg : W) (topic : String)
    (options : List (BridgeMessageOptions → BridgeMessageOptions)) :
    Session × SendOutcome :=
  match s.ID, s.PrivateKey, s.ClientID with
  | some i, some _, some c =>
    if s.BridgeURL = "" then (s, SendOutcome.notEstablished)
    else
      let opts := options.foldl (fun o f => f o) { TTL := "300", Topic := "" }
      let q := [("client_id", hexEncode i), ("to", hexEncode c)]
        ++ (if opts.TTL ≠ "" then [("ttl", opts.TTL)] else [])
        ++ (if topic ≠ "" then [("topic", topic)] else [])
      match marshal msg with
      | none => (s, SendOutcome.encryptFailed)
      | some data => (s, SendOutcome.httpRequest q (easySeal data s.ClientID s.PrivateKey))
  | _, _, _ => (s, SendOutcome.notEstablished)

/-- The `WithTTL` option constructor. -/
def WithTTL (ttl : Nat) : BridgeMessageOptions → BridgeMessageOptions :=
  fun opts => { opts with TTL := Nat.repr ttl }

/-- The subscription request `connectToBridge` builds:
`<bridgeURL>/events` plus query parameters. -/
structure EventsRequest where
  base : String
  path : String
  query : List (String × String)
deriving DecidableEq

/-- The request-construction prefix of `Session.connectToBridge`: the
empty-key-pair guard, then `<bridgeURL>/events` with `client_id` always and
`last_event_id` exactly when the stored cursor is positive.  (A `url.Parse`
failure of the bridge URL, which also aborts before any request, is outside
the scope of the claims and not modelled.) -/
def connectToBridgeRequest (s : Session) (bridgeURL : String) : Option EventsRequest :=
  match s.ID, s.PrivateKey with
  | some i, some _ =>
    some { base := bridgeURL, path := "/events",
           query := [("client_id", hexEncode i)]
             ++ (if s.LastEventID > 0 then [("last_event_id", Nat.repr s.LastEventID)] else []) }
  | _, _ => none

/-- Errors produced by the `connector` package wrappers: either the
underlying protocol error, returned unchanged, or a distinct wrapping of a
`storage.Set` failure after a successful exchange, carrying the Go format
string prefix (typo included) and the storage cause. -/
inductive ConnectorError (E S : Type)
  | protocol (e : E)
  | saving (msg : String) (cause : S)
deriving DecidableEq

/-- `Connector.SendTransaction`: run the protocol exchange, then persist via
`storage.Set`.  The exchange result and the storage outcome are parameters
(both are external calls); the `Bool` records whether `storage.Set` was
invoked. -/
def SendTransactionConnector {E S R : Type} (protoResult : Except E R)
    (setResult : Except S Unit) : Except (ConnectorError E S) R × Bool :=
  match protoResult with
  | Except.error e => (Except.error (ConnectorError.protocol e), false)
  | Except.ok resp =>
    match setResult with
    | Except.error se =>
      (Except.error (ConnectorError.saving "saving session after sucessful SendTransaction" se), true)
    | Except.ok _ => (Except.ok resp, true)

/-- `Connector.SignData`, same shape as `SendTransaction`. -/
def SignDataConnector {E S R : Type} (protoResult : Except E R)
    (setResult : Except S Unit) : Except (ConnectorError E S) R × Bool :=
  match protoResult with
  | Except.error e => (Except.error (ConnectorError.protocol e), false)
  | Except.ok resp =>
    match setResult with
    | Except.error se =>
      (Except.error (ConnectorError.saving "saving session after sucessful SignData" se), true)
    | Except.ok _ => (Except.ok resp, true)

/-- `Connector.Disconnect`, same shape but with no response value. -/
def DisconnectConnector {E S : Type} (protoResult : Except E Unit)
    (setResult : Except S Unit) : Except (ConnectorError E S) Unit × Bool :=
  match protoResult with
  | Except.error e => (Except.error (ConnectorError.protocol e), false)
  | Except.ok _ =>
    match setResult with
    | Except.error se =>
      (Except.error (ConnectorError.saving "saving session after sucessful Disconnect" se), true)
    | Except.ok _ => (Except.ok (), true)

/-!
## The `Connector.Connect` race

`Connect` starts one goroutine per candidate wallet; a failing attempt
pushes its error onto the buffered channel `errCh` (capacity = number of
wallets), a successful attempt performs a NON-blocking send of its response
on the UNBUFFERED channel `respCh` (dropping the response when the main
goroutine is not at that instant parked receiving), a closer goroutine
closes both channels once every attempt is done, and the main goroutine
loops over `select` on the two channels.

This is embedded as a small-step machine over `RaceState`, with the
scheduler's choices made explicit, so that every modelled execution is a
legal Go interleaving:
* `runFail i` — attempt `i` (whose outcome is a failure) runs to completion:
  its error lands in the `errCh` buffer.
* `runDeliver i` — attempt `i` (a success) runs while the main goroutine is
  parked at the `select`: the unbuffered rendezvous succeeds and the main
  goroutine receives the response.
* `runDrop i` — attempt `i` (a success) runs while the main goroutine is
  NOT at the `select` (it is executing a case body, persisting, or has
  returned): the non-blocking send takes the `default` branch and the
  response is silently dropped.
* `closer` — all attempts are done: `wg.Wait()` returns and both channels
  are closed.
* `mainErr` — the main `select` takes a buffered error (`ok = true`), the
  body discards it and loops.
* `mainErrClosed` — `errCh` is closed and drained: `ok = false`, the main
  goroutine returns the aggregate "all connect attempts failed" error.
* `mainRespClosed` — `respCh` is closed: the receive yields `nil`, the
  `resp != nil` guard fails and the body loops.
* `mainLoop` — the main goroutine finishes a looping case body and is back
  at the `select`.
* `mainPersist` — the main goroutine received a response: it calls
  `storage.Set` and returns (the response on success, the wrapping
  "saving session after successful Connect" error otherwise).
-/

/-- The outcome of one candidate's `session.Connect(ctx, w)` call: a non-nil
response or an error (both abstracted to a numeric tag). -/
inductive Outcome
  | success (resp : Nat)
  | failure (err : Nat)
deriving DecidableEq

/-- Whether an outcome is a success. -/
def Outcome.isSuccess : Outcome → Bool
  | Outcome.success _ => true
  | Outcome.failure _ => false

/-- Whether an outcome is a failure. -/
def Outcome.isFailure : Outcome → Bool
  | Outcome.success _ => false
  | Outcome.failure _ => true

/-- What `Connector.Connect` returns: `connected r` = `(resp, nil)`,
`allFailed` = `(nil, "all connect attempts failed")`, `saveFailed e` =
`(nil, "saving session after successful Connect: ..." )`. -/
inductive RaceResult
  | connected (resp : Nat)
  | allFailed
  | saveFailed (err : Nat)
deriving DecidableEq

/-- The main goroutine's position in `Connect`'s `for`/`select` loop. -/
inductive MainState
  | atSelect
  | looping
  | gotResp (resp : Nat)
  | finished (res : RaceResult)
deriving DecidableEq

/-- Global state of one `Connect` call: which attempt goroutines have
finished, the contents of the `errCh` buffer, whether the closer goroutine
has closed the channels, and the main goroutine's state. -/
structure RaceState where
  done : List Bool
  errBuf : List Nat
  closed : Bool
  main : MainState
deriving DecidableEq

/-- Initial state for `n` candidate wallets. -/
def initRace (n : Nat) : RaceState :=
  { done := List.replicate n false, errBuf := [], closed := false, main := MainState.atSelect }

/-- One scheduler choice (see the section comment for the reading). -/
inductive Choice
  | runFail (i : Nat)
  | runDeliver (i : Nat)
  | runDrop (i : Nat)
  | closer
  | mainErr
  | mainErrClosed
  | mainRespClosed
  | mainLoop
  | mainPersist
deriving DecidableEq

/-- One step of the `Connect` machine; `none` when the choice is not
enabled in the given state.  `outcomes` fixes each attempt's result,
`setResult` fixes the behaviour of the external `storage.Set`. -/
def raceStep (outcomes : List Outcome) (setResult : Except Nat Unit)
    (st : RaceState) : Choice → Option RaceState
  | Choice.runFail i =>
    match outcomes[i]?, st.done[i]? with
    | some (Outcome.failure e), some false =>
      if st.errBuf.length < outcomes.length then
        some { st with done := st.done.set i true, errBuf := st.errBuf ++ [e] }
      else none
    | _, _ => none
  | Choice.runDeliver i =>
    match outcomes[i]?, st.done[i]?, st.main with
    | some (Outcome.success r), some false, MainState.atSelect =>
      some { st with done := st.done.set i true, main := MainState.gotResp r }
    | _, _, _ => none
  | Choice.runDrop i =>
    match outcomes[i]?, st.done[i]? with
    | some (Outcome.success _), some false =>
      if st.main = MainState.atSelect then none
      else some { st with done := st.done.set i true }
    | _, _ => none
  | Choice.closer =>
    if st.done.all (· = true) ∧ ¬ st.closed then some { st with closed := true } else none
  | Choice.mainErr =>
    match st.main, st.errBuf with
    | MainState.atSelect, _ :: rest =>
      some { st with errBuf := rest, main := MainState.looping }
    | _, _ => none
  | Choice.mainErrClosed =>
    match st.main, st.errBuf, st.closed with
    | MainState.atSelect, [], true =>
      some { st with main := MainState.finished RaceResult.allFailed }
    | _, _, _ => none
  | Choice.mainRespClosed =>
    match st.main, st.closed with
    | MainState.atSelect, true => some { st with main := MainState.looping }
    | _, _ => none
  | Choice.mainLoop =>
    match st.main with
    | MainState.looping => some { st with main := MainState.atSelect }
    | _ => none
  | Choice.mainPersist =>
    match st.main with
    | MainState.gotResp r =>
      let res : RaceResult :=
        match setResult with
        | Except.ok _ => RaceResult.connected r
        | Except.error e => RaceResult.saveFailed e
      some { st with main := MainState.finished res }
    | _ => none

/-- Run the machine along an explicit schedule; fails if any scheduled
choice is not enabled. -/
def runRace (outcomes : List Outcome) (setResult : Except Nat Unit) :
    RaceState → List Choice → Option RaceState
  | st, [] => some st
  | st, c :: cs =>
    match raceStep outcomes setResult st c with
    | none => none
    | some st' => runRace outcomes setResult st' cs

/-- One enabled step, with the choice existentially quantified. -/
def RaceStepR (outcomes : List Outcome) (setResult : Except Nat Unit)
    (st st' : RaceState) : Prop :=
  ∃ c, raceStep outcomes setResult st c = some st'

/-- Reachability from the initial state of a `Connect` call. -/
def ReachRace (outcomes : List Outcome) (setResult : Except Nat Unit)
    (st : RaceState) : Prop :=
  Relation.ReflTransGen (RaceStepR outcomes setResult) (initRace outcomes.length) st

/-- Every candidate's attempt fails. -/
def AllFail (outcomes : List Outcome) : Prop :=
  ∀ x ∈ outcomes, x.isFailure = true

instance (outcomes : List Outcome) : Decidable (AllFail outcomes) := by
  unfold AllFail; infer_instance

/-- Invariant of the `Connect` machine when every attempt fails: the `done`
list tracks exactly the candidates, the error buffer never exceeds its
capacity (each pending attempt still owns one free slot), and the main
goroutine never holds a response — so the only way to finish is the
aggregate failure. -/
def RaceInv (outcomes : List Outcome) (st : RaceState) : Prop :=
  st.done.length = outcomes.length ∧
  st.errBuf.length + st.done.count false ≤ outcomes.length ∧
  (st.main = MainState.atSelect ∨ st.main = MainState.looping ∨
   st.main = MainState.finished RaceResult.allFailed)

/-- Termination measure for the all-fail runs of the `Connect` machine:
strictly decreases along every step the progress argument schedules. -/
def raceMeasure (st : RaceState) : Nat :=
  3 * st.done.count false + 2 * st.errBuf.length + (if st.closed then 0 else 1) +
  (match st.main with
   | MainState.atSelect => 0
   | MainState.looping => 1
   | MainState.gotResp _ => 2
   | MainState.finished _ => 0)

/-- Concrete 32-byte key (all bytes 1) for witness instances. -/
def keyA : Key := List.replicate 32 1

/-- Concrete 32-byte key (all bytes 2) for witness instances. -/
def keyB : Key := List.replicate 32 2

/-- A fresh session as produced by `NewSession` on concrete keys. -/
def freshSession : Session := NewSession keyA keyB

/-- A session whose peer is bound to `keyA`. -/
def boundSession : Session := { NewSession keyA keyB with ClientID := some keyA }

/-! ## Helper lemmas -/

/-- `decrypt` returns the session it was given, in every branch. -/
theorem decrypt_fst {W : Type} (ob : List Nat → Key → Option Key → Option (List Nat))
    (pp : List Nat → Option W) (s : Session) (fr : String) (msg : List Nat) :
    (decrypt ob pp s fr msg).1 = s := by
  unfold decrypt
  repeat' split
  all_goals rfl

/-- Normal form of one callback invocation when the event id is numeric:
the cursor is stored first, and the delivery depends only on the envelope
parse and `decrypt` outcomes. -/
theorem handleEvent_some_eq {W : Type} (pe : String → Option (String × List Nat))
    (ob : List Nat → Key → Option Key → Option (List Nat)) (pp : List Nat → Option W)
    (burl : String) (s : Session) (e : SSEEvent) (n : Nat)
    (h : parseUint64 e.lastEventID = some n) :
    handleEvent pe ob pp burl s e = some ({ s with LastEventID := n },
      match pe e.data with
      | none => none
      | some (fr, m) =>
        match (decrypt ob pp { s with LastEventID := n } fr m).2 with
        | Except.ok (q, w) => some ⟨burl, q, w⟩
        | Except.error _ => none) := by
  unfold handleEvent
  simp only [h]
  cases hpe : pe e.data with
  | none => rfl
  | some p =>
    obtain ⟨fr, m⟩ := p
    have hd := decrypt_fst ob pp { s with LastEventID := n } fr m
    rcases hdec : decrypt ob pp { s with LastEventID := n } fr m with ⟨s2, r⟩
    rw [hdec] at hd
    have hs2 : s2 = { s with LastEventID := n } := hd
    subst hs2
    cases r with
    | ok kw =>
      obtain ⟨q, w⟩ := kw
      simp only [hdec]
    | error err =>
      simp only [hdec]

/-! ## Claims about the stream handler and decrypt -/

/-- Claim C4: for every event received on a bridge subscription whose event id
parses as an unsigned integer, the stream handler stores that id into
`Session.LastEventID` before attempting to parse the event body as a
`BridgeMessage` envelope and before attempting to decrypt it; the resulting
session carries the new cursor no matter what the (arbitrary) envelope
parser, opener and payload decoder do with that same event. -/
theorem cursor_stored_before_decrypt {W : Type} (pe : String → Option (String × List Nat))
    (ob : List Nat → Key → Option Key → Option (List Nat)) (pp : List Nat → Option W)
    (burl : String) (s : Session) (e : SSEEvent) (n : Nat)
    (h : parseUint64 e.lastEventID = some n) :
    ∃ d, handleEvent pe ob pp burl s e = some ({ s with LastEventID := n }, d) :=
  ⟨_, handleEvent_some_eq pe ob pp burl s e n h⟩

/-- Witness for `cursor_stored_before_decrypt`: a concrete event with id "5"
whose body fails envelope parsing still advances the cursor to 5. -/
theorem cursor_stored_before_decrypt_witness :
    parseUint64 "5" = some 5 ∧
    ∃ d, handleEvent (W := Unit) (fun _ => none) (fun _ _ _ => none) (fun _ => none) "b"
      freshSession ⟨"5", "x"⟩ = some ({ freshSession with LastEventID := 5 }, d) :=
  ⟨by decide,
   cursor_stored_before_decrypt (fun _ => none) (fun _ _ _ => none) (fun _ => none) "b"
     freshSession ⟨"5", "x"⟩ 5 (by decide)⟩

/-- Claim C6: an inbound stream event (with a numeric id) whose body fails to
parse as the `BridgeMessage` envelope, or whose body fails any stage of
`decrypt` (peer binding, authenticated opening, payload decoding), is
silently dropped: the handler completes normally (no error, no stream
termination) and publishes nothing on the internal channel. -/
theorem malformed_event_silently_dropped {W : Type} (pe : String → Option (String × List Nat))
    (ob : List Nat → Key → Option Key → Option (List Nat)) (pp : List Nat → Option W)
    (burl : String) (s : Session) (e : SSEEvent) (n : Nat)
    (h : parseUint64 e.lastEventID = some n)
    (hbad : pe e.data = none ∨ ∃ fr m err, pe e.data = some (fr, m) ∧
      (decrypt ob pp { s with LastEventID := n } fr m).2 = Except.error err) :
    handleEvent pe ob pp burl s e = some ({ s with LastEventID := n }, none) := by
  rw [handleEvent_some_eq pe ob pp burl s e n h]
  rcases hbad with h1 | ⟨fr, m, err, h1, h2⟩
  · simp only [h1]
  · simp only [h1, h2]

/-- Witness for `malformed_event_silently_dropped`: an event whose body does
not parse as the envelope is absorbed without delivering anything. -/
theorem malformed_event_silently_dropped_witness :
    parseUint64 "9" = some 9 ∧
    handleEvent (W := Unit) (fun _ => none) (fun _ _ _ => none) (fun _ => none) "b"
      freshSession ⟨"9", "garbage"⟩ = some ({ freshSession with LastEventID := 9 }, none) :=
  ⟨by decide,
   malformed_event_silently_dropped (fun _ => none) (fun _ _ _ => none) (fun _ => none) "b"
     freshSession ⟨"9", "garbage"⟩ 9 (by decide) (Or.inl rfl)⟩

/-- Claim C5: once a session's peer key is bound, an inbound envelope whose
declared sender (hex-decoded `from`) differs from the bound peer is rejected
with the peer-mismatch error — for every possible behaviour of the opener,
i.e. even if the ciphertext would decrypt under the declared sender's key —
and the stream handler delivers nothing for such an event. -/
theorem peer_mismatch_rejected {W : Type}
    (ob : List Nat → Key → Option Key → Option (List Nat)) (pp : List Nat → Option W)
    (s : Session) (bound : Key) (fr : String) (q : Key) (msg : List Nat)
    (hbound : s.ClientID = some bound) (hload : naclLoad fr = some q) (hne : q ≠ bound) :
    (decrypt ob pp s fr msg).2 = Except.error DecryptError.peerMismatch ∧
    ∀ (pe : String → Option (String × List Nat)) (burl : String) (e : SSEEvent) (n : Nat),
      parseUint64 e.lastEventID = some n → pe e.data = some (fr, msg) →
      handleEvent pe ob pp burl s e = some ({ s with LastEventID := n }, none) := by
  have key : ∀ s' : Session, s'.ClientID = some bound →
      (decrypt ob pp s' fr msg).2 = Except.error DecryptError.peerMismatch := by
    intro s' h
    unfold decrypt
    simp only [hload, h]
    rw [if_neg (fun hh => hne hh.symm)]
  refine ⟨key s hbound, ?_⟩
  intro pe burl e n hn hpe
  rw [handleEvent_some_eq pe ob pp burl s e n hn]
  simp only [hpe, key { s with LastEventID := n } hbound]

/-- Witness for `peer_mismatch_rejected`: a session bound to `keyA` rejects a
well-formed envelope declaring sender `keyB`, under an opener that succeeds
on everything. -/
theorem peer_mismatch_rejected_witness :
    boundSession.ClientID = some keyA ∧ naclLoad (hexEncode keyB) = some keyB ∧ keyB ≠ keyA ∧
    (decrypt (fun _ _ _ => some [1]) (fun _ => some ()) boundSession (hexEncode keyB) [2]).2
      = Except.error DecryptError.peerMismatch :=
  ⟨by decide, by decide, by decide,
   (peer_mismatch_rejected (fun _ _ _ => some [1]) (fun _ => some ()) boundSession keyA
     (hexEncode keyB) keyB [2] (by decide) (by decide) (by decide)).1⟩

/-- Claim C10: `decrypt` never mutates the session — whatever the outcome,
the returned session is the one passed in (same `ClientID`, counters, keys,
bridge URL); in particular a successful decrypt on a session with no bound
peer does not bind the declared sender as `ClientID`. -/
theorem decrypt_no_mutation {W : Type}
    (ob : List Nat → Key → Option Key → Option (List Nat)) (pp : List Nat → Option W)
    (s : Session) (fr : String) (msg : List Nat) :
    (decrypt ob pp s fr msg).1 = s ∧
    (s.ClientID = none → ∀ q w, (decrypt ob pp s fr msg).2 = Except.ok (q, w) →
      (decrypt ob pp s fr msg).1.ClientID = none) :=
  ⟨decrypt_fst ob pp s fr msg,
   fun h _ _ _ => by rw [decrypt_fst]; exact h⟩

/-- Witness for `decrypt_no_mutation`: a successful decrypt on an unbound
session leaves the session untouched and the peer unbound. -/
theorem decrypt_no_mutation_witness :
    (decrypt (fun _ _ _ => some [7]) (fun _ => some ()) freshSession (hexEncode keyB) [3]).1
      = freshSession ∧
    freshSession.ClientID = none ∧
    (decrypt (fun _ _ _ => some [7]) (fun _ => some ()) freshSession (hexEncode keyB) [3]).2
      = Except.ok (keyB, ()) ∧
    (decrypt (fun _ _ _ => some [7]) (fun _ => some ()) freshSession (hexEncode keyB) [3]).1.ClientID
      = none :=
  ⟨(decrypt_no_mutation (fun _ _ _ => some [7]) (fun _ => some ()) freshSession (hexEncode keyB) [3]).1,
   by decide, by rfl,
   (decrypt_no_mutation (fun _ _ _ => some [7]) (fun _ => some ()) freshSession (hexEncode keyB) [3]).2
     (by decide) keyB () (by rfl)⟩

/-! ## Claims about the sender, the connector wrappers and the subscription -/

/-- Claim C7: when the own key pair, the peer key, or the bridge URL is unset,
`sendMessage` fails fast with the "session not established" error — the
outcome is not an HTTP request, for every possible marshaller and sealer
(so no encryption work is observable) — and the session is returned
unchanged. -/
theorem sendMessage_fail_fast {W : Type} (marshal : W → Option (List Nat))
    (easySeal : List Nat → Option Key → Option Key → List Nat)
    (s : Session) (msg : W) (topic : String)
    (options : List (BridgeMessageOptions → BridgeMessageOptions))
    (h : s.ID = none ∨ s.PrivateKey = none ∨ s.ClientID = none ∨ s.BridgeURL = "") :
    sendMessage marshal easySeal s msg topic options = (s, SendOutcome.notEstablished) := by
  unfold sendMessage
  rcases h with h | h | h | h <;>
    cases hid : s.ID <;> cases hpk : s.PrivateKey <;> cases hc : s.ClientID <;>
      simp_all

/-- Witness for `sendMessage_fail_fast`: a fresh session (no peer, no bridge
URL) cannot send. -/
theorem sendMessage_fail_fast_witness :
    (freshSession.ID = none ∨ freshSession.PrivateKey = none ∨ freshSession.ClientID = none ∨
      freshSession.BridgeURL = "") ∧
    sendMessage (W := Unit) (fun _ => some [1]) (fun d _ _ => d) freshSession () "topic" []
      = (freshSession, SendOutcome.notEstablished) :=
  ⟨by decide,
   sendMessage_fail_fast (fun _ => some [1]) (fun d _ _ => d) freshSession () "topic" [] (by decide)⟩

/-- Claim C8: for each single-peer connector operation (`SendTransaction`,
`SignData`, `Disconnect`): a protocol failure is returned unchanged and
`storage.Set` is not called; a protocol success persists the session (Set is
called) and returns the response; a Set failure after a protocol success is
surfaced as the distinct "saving session after sucessful ..." wrapping of
the persistence cause, not as a protocol failure. -/
theorem connector_persist_semantics (E S R : Type) (e : E) (r : R) (se : S)
    (setRes : Except S Unit) :
    SendTransactionConnector (R := R) (Except.error e) setRes
      = (Except.error (ConnectorError.protocol e), false) ∧
    SendTransactionConnector (E := E) (S := S) (Except.ok r) (Except.ok ())
      = (Except.ok r, true) ∧
    SendTransactionConnector (E := E) (Except.ok r) (Except.error se)
      = (Except.error (ConnectorError.saving "saving session after sucessful SendTransaction" se),
         true) ∧
    SignDataConnector (R := R) (Except.error e) setRes
      = (Except.error (ConnectorError.protocol e), false) ∧
    SignDataConnector (E := E) (S := S) (Except.ok r) (Except.ok ()) = (Except.ok r, true) ∧
    SignDataConnector (E := E) (Except.ok r) (Except.error se)
      = (Except.error (ConnectorError.saving "saving session after sucessful SignData" se), true) ∧
    DisconnectConnector (Except.error e) setRes
      = (Except.error (ConnectorError.protocol e), false) ∧
    DisconnectConnector (E := E) (S := S) (Except.ok ()) (Except.ok ()) = (Except.ok (), true) ∧
    DisconnectConnector (E := E) (Except.ok ()) (Except.error se)
      = (Except.error (ConnectorError.saving "saving session after sucessful Disconnect" se),
         true) :=
  ⟨rfl, rfl, rfl, rfl, rfl, rfl, rfl, rfl, rfl⟩

/-- Claim C9: the subscription request of `connectToBridge` targets
`<bridgeURL>/events` with `client_id` equal to the hex encoding of the
session's public ID, and carries `last_event_id` equal to the cursor exactly
when the cursor is nonzero; since `NewSession` initialises the cursor to 1,
a fresh session always sends `last_event_id`. -/
theorem events_request_query (s : Session) (b : String) (i pk : Key)
    (hid : s.ID = some i) (hpk : s.PrivateKey = some pk) :
    (∃ req, connectToBridgeRequest s b = some req ∧ req.base = b ∧ req.path = "/events" ∧
      ("client_id", hexEncode i) ∈ req.query ∧
      (("last_event_id", Nat.repr s.LastEventID) ∈ req.query ↔ 0 < s.LastEventID) ∧
      ∀ v, ("last_event_id", v) ∈ req.query → v = Nat.repr s.LastEventID) ∧
    ∀ (ki kp : Key) (b2 : String), ∃ req2,
      connectToBridgeRequest (NewSession ki kp) b2 = some req2 ∧
      ("last_event_id", "1") ∈ req2.query := by
  constructor
  · unfold connectToBridgeRequest
    simp only [hid, hpk]
    refine ⟨_, rfl, rfl, rfl, ?_, ?_, ?_⟩
    · simp
    · by_cases hpos : 0 < s.LastEventID <;> simp [hpos]
    · intro v hv
      simp only [List.mem_append, List.mem_singleton] at hv
      rcases hv with hv | hv
      · have hfst : "last_event_id" = "client_id" := congrArg Prod.fst hv
        exact absurd hfst (by decide)
      · by_cases hpos : 0 < s.LastEventID
        · rw [if_pos hpos] at hv
          simp only [List.mem_singleton] at hv
          exact congrArg Prod.snd hv
        · rw [if_neg hpos] at hv
          simp at hv
  · intro ki kp b2
    refine ⟨_, rfl, ?_⟩
    have h1 : ("last_event_id", "1") ∈ [("last_event_id", Nat.repr 1)] := by decide
    exact List.mem_append_right _ h1

/-- Witness for `events_request_query`: the concrete fresh session. -/
theorem events_request_query_witness :
    freshSession.ID = some keyA ∧ freshSession.PrivateKey = some keyB ∧
    ((∃ req, connectToBridgeRequest freshSession "https://bridge" = some req ∧
      req.base = "https://bridge" ∧ req.path = "/events" ∧
      ("client_id", hexEncode keyA) ∈ req.query ∧
      (("last_event_id", Nat.repr freshSession.LastEventID) ∈ req.query ↔
        0 < freshSession.LastEventID) ∧
      ∀ v, ("last_event_id", v) ∈ req.query → v = Nat.repr freshSession.LastEventID) ∧
    ∀ (ki kp : Key) (b2 : String), ∃ req2,
      connectToBridgeRequest (NewSession ki kp) b2 = some req2 ∧
      ("last_event_id", "1") ∈ req2.query) :=
  ⟨by decide, by decide,
   events_request_query freshSession "https://bridge" keyA keyB (by decide) (by decide)⟩

/-! ## Claim C3: cursor monotonicity -/

/-- Counterexample to claim C3 as stated: over an arbitrary delivered
sequence the cursor is NOT monotonically non-decreasing — the handler stores
whatever id arrives, so delivering event ids "5" then "3" rolls the cursor
back from 5 to 3. -/
theorem cursor_rollback_counterexample :
    (processEvents (W := Unit) (fun _ => none) (fun _ _ _ => none) (fun _ => none) "b"
        freshSession [⟨"5", "x"⟩]).map (fun p => p.1.LastEventID) = some 5 ∧
    (processEvents (W := Unit) (fun _ => none) (fun _ _ _ => none) (fun _ => none) "b"
        freshSession [⟨"5", "x"⟩, ⟨"3", "x"⟩]).map (fun p => p.1.LastEventID) = some 3 ∧
    3 < 5 := by decide

/-- Claim C3 (amended): provided every delivered event's id is at least the
cursor value at the moment it is processed — as holds whenever the relay
delivers ids in non-decreasing order starting from the resumption point —
the session's `LastEventID` is monotonically non-decreasing, including
across events whose body fails to parse or decrypt. -/
theorem cursor_monotone_of_ordered_ids {W : Type} (pe : String → Option (String × List Nat))
    (ob : List Nat → Key → Option Key → Option (List Nat)) (pp : List Nat → Option W)
    (burl : String) :
    (∀ (s : Session) (e : SSEEvent) (n : Nat), parseUint64 e.lastEventID = some n →
      s.LastEventID ≤ n →
      ∃ s' d, handleEvent pe ob pp burl s e = some (s', d) ∧
        s.LastEventID ≤ s'.LastEventID) ∧
    ∀ (s : Session) (evs : List SSEEvent) (ids : List Nat),
      evs.map (fun e => parseUint64 e.lastEventID) = ids.map some →
      List.Chain (· ≤ ·) s.LastEventID ids →
      ∃ s' ds, processEvents pe ob pp burl s evs = some (s', ds) ∧
        s.LastEventID ≤ s'.LastEventID := by
  constructor
  · intro s e n hn hle
    exact ⟨{ s with LastEventID := n }, _, handleEvent_some_eq pe ob pp burl s e n hn, hle⟩
  · intro s evs
    induction evs generalizing s with
    | nil =>
      intro ids hmap _
      have : ids = [] := by
        cases ids with
        | nil => rfl
        | cons a t => simp at hmap
      subst this
      exact ⟨s, [], rfl, le_refl _⟩
    | cons e rest ih =>
      intro ids hmap hchain
      cases ids with
      | nil => simp at hmap
      | cons n ids' =>
        simp only [List.map_cons, List.cons.injEq] at hmap
        obtain ⟨hn, hrest⟩ := hmap
        rw [List.chain_cons] at hchain
        obtain ⟨hle, hchain'⟩ := hchain
        obtain ⟨s', ds', hrec, hle'⟩ := ih { s with LastEventID := n } ids' hrest hchain'
        obtain ⟨d, hd⟩ : ∃ d, handleEvent pe ob pp burl s e
            = some ({ s with LastEventID := n }, d) :=
          ⟨_, handleEvent_some_eq pe ob pp burl s e n hn⟩
        cases d with
        | none =>
          refine ⟨s', ds', ?_, le_trans hle hle'⟩
          unfold processEvents
          rw [hd]
          simp only [hrec, List.nil_append]
        | some x =>
          refine ⟨s', x :: ds', ?_, le_trans hle hle'⟩
          unfold processEvents
          rw [hd]
          simp only [hrec, List.singleton_append]

/-- Witness for `cursor_monotone_of_ordered_ids`: events with ids 5 then 8
(bodies unparseable) leave the fresh session's cursor at 8 ≥ 1. -/
theorem cursor_monotone_of_ordered_ids_witness :
    parseUint64 "7" = some 7 ∧ freshSession.LastEventID ≤ 7 ∧
    (∃ s' d, handleEvent (W := Unit) (fun _ => none) (fun _ _ _ => none) (fun _ => none) "b"
        freshSession ⟨"7", "x"⟩ = some (s', d) ∧
      freshSession.LastEventID ≤ s'.LastEventID) ∧
    ([(⟨"5", "x"⟩ : SSEEvent), ⟨"8", "y"⟩].map (fun e => parseUint64 e.lastEventID)
      = ([5, 8] : List Nat).map some) ∧
    List.Chain (· ≤ ·) freshSession.LastEventID [5, 8] ∧
    ∃ s' ds, processEvents (W := Unit) (fun _ => none) (fun _ _ _ => none) (fun _ => none) "b"
        freshSession [⟨"5", "x"⟩, ⟨"8", "y"⟩] = some (s', ds) ∧
      freshSession.LastEventID ≤ s'.LastEventID :=
  ⟨by decide, by decide,
   (cursor_monotone_of_ordered_ids (fun _ => none) (fun _ _ _ => none) (fun _ => none) "b").1
     freshSession ⟨"7", "x"⟩ 7 (by decide) (by decide),
   by decide,
   List.Chain.cons (by decide) (List.Chain.cons (by decide) List.Chain.nil),
   (cursor_monotone_of_ordered_ids (fun _ => none) (fun _ _ _ => none) (fun _ => none) "b").2
     freshSession [⟨"5", "x"⟩, ⟨"8", "y"⟩] [5, 8] (by decide)
     (List.Chain.cons (by decide) (List.Chain.cons (by decide) List.Chain.nil))⟩

/-! ## Claims about the `Connect` race -/

/-- Claim C1 is refuted by the code: a legal interleaving of `Connect` with
two candidates, exactly one of which succeeds, in which the lone success is
lost.  The loser's error is consumed first; while the consumer is executing
that case body, the winner's non-blocking send on the unbuffered response
channel takes the `default` branch and the response is dropped; both
channels are then closed and `Connect` returns the aggregate
"all connect attempts failed" error instead of the successful response. -/
theorem connect_drops_lone_success :
    ([Outcome.failure 1, Outcome.success 7].countP (fun o => o.isSuccess) = 1) ∧
    runRace [Outcome.failure 1, Outcome.success 7] (Except.ok ()) (initRace 2)
      [Choice.runFail 0, Choice.mainErr, Choice.runDrop 1, Choice.closer,
       Choice.mainLoop, Choice.mainErrClosed]
      = some { done := [true, true], errBuf := [], closed := true,
               main := MainState.finished RaceResult.allFailed } := by
  decide

/-- Setting index `i` (currently `false`) to `true` removes exactly one
`false` from the list. -/
theorem count_false_set (l : List Bool) (i : Nat) (h : l[i]? = some false) :
    (l.set i true).count false + 1 = l.count false := by
  induction l generalizing i with
  | nil => simp at h
  | cons b t ih =>
    cases i with
    | zero =>
      simp at h
      subst h
      simp [List.count_cons]
    | succ j =>
      have h' : t[j]? = some false := by simpa using h
      have := ih j h'
      cases b <;> simp [List.count_cons] <;> omega

/-- Every step of the machine preserves `RaceInv` when all outcomes are
failures. -/
theorem raceStep_inv (outcomes : List Outcome) (setResult : Except Nat Unit)
    (st st' : RaceState) (c : Choice) (hall : AllFail outcomes)
    (hinv : RaceInv outcomes st) (h : raceStep outcomes setResult st c = some st') :
    RaceInv outcomes st' := by
  obtain ⟨hlen, hbuf, hmain⟩ := hinv
  cases c <;> simp only [raceStep] at h
  case runFail i =>
    split at h
    case _ e heq1 heq2 =>
      split at h
      · injection h with h
        subst h
        refine ⟨?_, ?_, hmain⟩
        · simpa using hlen
        · have hc := count_false_set st.done i heq2
          simp only [List.length_append, List.length_cons, List.length_nil]
          omega
      · exact absurd h (by simp)
    case _ => exact absurd h (by simp)
  case runDeliver i =>
    split at h
    case _ r heq1 heq2 heq3 =>
      have hmem : Outcome.success r ∈ outcomes := List.getElem?_mem heq1
      have := hall _ hmem
      simp [Outcome.isFailure] at this
    case _ => exact absurd h (by simp)
  case runDrop i =>
    split at h
    case _ r heq1 heq2 =>
      have hmem : Outcome.success r ∈ outcomes := List.getElem?_mem heq1
      have := hall _ hmem
      simp [Outcome.isFailure] at this
    case _ => exact absurd h (by simp)
  case closer =>
    split at h
    · injection h with h
      subst h
      exact ⟨hlen, hbuf, hmain⟩
    · exact absurd h (by simp)
  case mainErr =>
    split at h
    case _ e rest heq1 heq2 =>
      injection h with h
      subst h
      refine ⟨hlen, ?_, Or.inr (Or.inl rfl)⟩
      rw [heq2] at hbuf
      simp only [List.length_cons] at hbuf
      dsimp only
      omega
    case _ => exact absurd h (by simp)
  case mainErrClosed =>
    split at h
    · injection h with h
      subst h
      exact ⟨hlen, hbuf, Or.inr (Or.inr rfl)⟩
    · exact absurd h (by simp)
  case mainRespClosed =>
    split at h
    · injection h with h
      subst h
      exact ⟨hlen, hbuf, Or.inr (Or.inl rfl)⟩
    · exact absurd h (by simp)
  case mainLoop =>
    split at h
    · injection h with h
      subst h
      exact ⟨hlen, hbuf, Or.inl rfl⟩
    · exact absurd h (by simp)
  case mainPersist =>
    split at h
    case _ r heq =>
      rcases hmain with hm | hm | hm <;> rw [hm] at heq <;> cases heq
    case _ => exact absurd h (by simp)

/-- `RaceInv` holds in every reachable state of an all-fail run. -/
theorem reachRace_inv (outcomes : List Outcome) (setResult : Except Nat Unit)
    (st : RaceState) (hall : AllFail outcomes)
    (h : ReachRace outcomes setResult st) : RaceInv outcomes st := by
  induction h with
  | refl =>
    refine ⟨?_, ?_, Or.inl rfl⟩
    · simp [initRace]
    · simp [initRace]
  | tail hrt hstep ih =>
    obtain ⟨c, hc⟩ := hstep
    exact raceStep_inv _ _ _ _ c hall ih hc

/-- Progress for all-fail runs: from any state satisfying the invariant, a
finite sequence of enabled steps reaches the aggregate-failure return.
(Induction on `raceMeasure`; the only non-decreasing enabled cycle, the
spin on the closed response channel, is never scheduled by this argument.) -/
theorem race_progress (outcomes : List Outcome) (setResult : Except Nat Unit)
    (hall : AllFail outcomes) (k : Nat) :
    ∀ st : RaceState, RaceInv outcomes st → raceMeasure st ≤ k →
      ∃ st', Relation.ReflTransGen (RaceStepR outcomes setResult) st st' ∧
        st'.main = MainState.finished RaceResult.allFailed := by
  induction k using Nat.strong_induction_on with
  | _ k ih =>
  intro st hinv hm
  have hstep : ∀ st1 : RaceState, RaceStepR outcomes setResult st st1 →
      raceMeasure st1 < raceMeasure st →
      ∃ st', Relation.ReflTransGen (RaceStepR outcomes setResult) st st' ∧
        st'.main = MainState.finished RaceResult.allFailed := by
    intro st1 hs hlt
    obtain ⟨c, hc⟩ := hs
    have hinv1 := raceStep_inv outcomes setResult st st1 c hall hinv hc
    obtain ⟨st', hrt, hfin⟩ :=
      ih (raceMeasure st1) (lt_of_lt_of_le hlt hm) st1 hinv1 (le_refl _)
    exact ⟨st', Relation.ReflTransGen.head ⟨c, hc⟩ hrt, hfin⟩
  obtain ⟨hlen, hbuf, hmain⟩ := hinv
  rcases hmain with hmn | hmn | hmn
  · by_cases hready : false ∈ st.done
    · obtain ⟨⟨i, hilt⟩, hig⟩ := List.get_of_mem hready
      have hi : st.done[i]? = some false := by
        rw [List.getElem?_eq_getElem hilt]
        simpa using hig
      have hilt2 : i < outcomes.length := hlen ▸ hilt
      have ho : outcomes[i]? = some outcomes[i] := List.getElem?_eq_getElem hilt2
      have hof := hall _ (List.getElem?_mem ho)
      have hcount : 0 < st.done.count false := List.count_pos_iff.mpr hready
      cases hoc : outcomes[i] with
      | success r => rw [hoc] at hof; simp [Outcome.isFailure] at hof
      | failure e =>
        rw [hoc] at ho
        have hguard : st.errBuf.length < outcomes.length := by omega
        have hc : raceStep outcomes setResult st (Choice.runFail i)
            = some { st with done := st.done.set i true, errBuf := st.errBuf ++ [e] } := by
          simp only [raceStep, ho, hi, if_pos hguard]
        apply hstep _ ⟨Choice.runFail i, hc⟩
        have hcf := count_false_set st.done i hi
        simp only [raceMeasure, hmn]
        dsimp only
        simp only [List.length_append, List.length_cons, List.length_nil]
        omega
    · have halltrue : st.done.all (· = true) = true := by
        rw [List.all_eq_true]
        intro b hb
        cases b with
        | true => simp
        | false => exact absurd hb hready
      by_cases hcl : st.closed
      · cases hbufe : st.errBuf with
        | nil =>
          have hc : raceStep outcomes setResult st Choice.mainErrClosed
              = some { st with main := MainState.finished RaceResult.allFailed } := by
            simp only [raceStep, hmn, hbufe, hcl]
          exact ⟨_, Relation.ReflTransGen.single ⟨Choice.mainErrClosed, hc⟩, rfl⟩
        | cons err rest =>
          have hc : raceStep outcomes setResult st Choice.mainErr
              = some { st with errBuf := rest, main := MainState.looping } := by
            simp only [raceStep, hmn, hbufe]
          apply hstep _ ⟨Choice.mainErr, hc⟩
          simp only [raceMeasure, hmn, hbufe]
          dsimp only
          simp only [List.length_cons]
          omega
      · have hc : raceStep outcomes setResult st Choice.closer
            = some { st with closed := true } := by
          simp only [raceStep]
          rw [if_pos ⟨halltrue, hcl⟩]
        apply hstep _ ⟨Choice.closer, hc⟩
        simp [raceMeasure, hmn, hcl]
  · have hc : raceStep outcomes setResult st Choice.mainLoop
        = some { st with main := MainState.atSelect } := by
      simp only [raceStep, hmn]
    apply hstep _ ⟨Choice.mainLoop, hc⟩
    simp only [raceMeasure, hmn]
    dsimp only
    omega
  · exact ⟨st, Relation.ReflTransGen.refl, hmn⟩

/-- Claim C2: when every candidate's attempt fails (including zero
candidates), `Connect` never returns anything but the nil-response aggregate
"all connect attempts failed" error — never an individual attempt's error,
never a response — and from every reachable state the aggregate-failure
return is reached by a finite sequence of enabled steps, so the call cannot
deadlock or wedge (the only enabled non-progressing step is the `select`
spin on the closed channels, which Go's randomized `select` cannot take
forever). -/
theorem connect_all_fail_aggregate (outcomes : List Outcome)
    (setResult : Except Nat Unit) (st : RaceState) (hall : AllFail outcomes)
    (hreach : ReachRace outcomes setResult st) :
    (∀ res, st.main = MainState.finished res → res = RaceResult.allFailed) ∧
    ∃ st', Relation.ReflTransGen (RaceStepR outcomes setResult) st st' ∧
      st'.main = MainState.finished RaceResult.allFailed := by
  have hinv := reachRace_inv outcomes setResult st hall hreach
  constructor
  · intro res hres
    rcases hinv.2.2 with h | h | h <;> rw [hres] at h
    · cases h
    · cases h
    · exact MainState.finished.inj h
  · exact race_progress outcomes setResult hall (raceMeasure st) st hinv (le_refl _)

/-- Witness for `connect_all_fail_aggregate`: one failing candidate, from
the initial state. -/
theorem connect_all_fail_aggregate_witness :
    AllFail [Outcome.failure 5] ∧
    ((∀ res, (initRace 1).main = MainState.finished res → res = RaceResult.allFailed) ∧
     ∃ st', Relation.ReflTransGen (RaceStepR [Outcome.failure 5] (Except.ok ())) (initRace 1) st' ∧
       st'.main = MainState.finished RaceResult.allFailed) :=
  ⟨by decide,
   connect_all_fail_aggregate [Outcome.failure 5] (Except.ok ()) (initRace 1) (by decide)
     Relation.ReflTransGen.refl⟩

end TonConnect
